import Mathlib

/-!
Verification of the codemod script fix-auth-headers.py.

The script has two operations:
* add_apiFetch_to_apiBase: a plain string replace that inserts a helper
  block immediately before the anchor line, then writes unconditionally.
* update_file_with_apiFetch: a guarded chain of six global regular
  expression substitutions over the file content, writing only on change.

File contents are modelled as lists of characters.  Each of the six
regular expressions is embedded as a deterministic matcher: every greedy
quantifier in the patterns is followed by a literal that the quantified
class excludes, so the backtracking engine finds exactly the maximal
munch parse and the match at a given position is unique.
-/

set_option maxRecDepth 1000000

namespace FixAuth

/-- The double quote character. -/
def dq : Char := '\x22'

/-- The single quote character. -/
def sq : Char := '\x27'

/-- Membership in the character class of the quote alternatives used by
the import patterns and the credentials patterns. -/
def isQuote (c : Char) : Bool := c == dq || c == sq

/-- The whitespace class of Python regular expressions over text patterns. -/
def isPySpace (c : Char) : Bool :=
  let n := c.toNat
  n == 32 || (decide (9 ≤ n) && decide (n ≤ 13)) ||
  (decide (28 ≤ n) && decide (n ≤ 31)) || n == 133 || n == 160 ||
  n == 0x1680 || (decide (0x2000 ≤ n) && decide (n ≤ 0x200a)) ||
  n == 0x2028 || n == 0x2029 || n == 0x202f || n == 0x205f || n == 0x3000

/-- Python's substring containment test, as used by the operator in. -/
def containsSub (pat : List Char) : List Char → Bool
  | [] => pat.isEmpty
  | s@(_ :: t) => pat.isPrefixOf s || containsSub pat t

/-- Scanner for Python's str.replace: at skip state zero, a position where
the pattern matches emits the replacement and skips the matched region;
otherwise the character is copied.  A positive skip state consumes the rest
of a matched region that was already replaced. -/
def raGo (pat rep : List Char) : Nat → List Char → List Char
  | _, [] => []
  | k + 1, _ :: t => raGo pat rep k t
  | 0, s@(a :: t) =>
    if pat.isPrefixOf s && !pat.isEmpty then
      rep ++ raGo pat rep (pat.length - 1) t
    else
      a :: raGo pat rep 0 t

/-- Python's str.replace for a nonempty pattern: global, leftmost,
non-overlapping. -/
def pyReplace (s pat rep : List Char) : List Char := raGo pat rep 0 s

/-- Match a literal, returning the remainder of the input. -/
def lit (l s : List Char) : Option (List Char) :=
  if l.isPrefixOf s then some (s.drop l.length) else none

/-- Greedy star over the whitespace class.  In every pattern of the script
it is followed by a literal outside the class, so maximal munch is exact. -/
def ws (s : List Char) : List Char := s.dropWhile isPySpace

/-- Match one character of the quote class, returning it and the rest. -/
def quoteStep : List Char → Option (Char × List Char)
  | [] => none
  | c :: t => if isQuote c then some (c, t) else none

/-- Scanner for re.sub with a matcher that never matches the empty string:
at skip state zero try the matcher; on success emit the replacement and
skip the matched region, otherwise copy one character and rescan. -/
def reGo (m : List Char → Option (List Char × List Char)) :
    Nat → List Char → List Char
  | _, [] => []
  | k + 1, _ :: t => reGo m k t
  | 0, s@(a :: t) =>
    match m s with
    | some (rep, rest) => rep ++ reGo m (s.length - rest.length - 1) t
    | none => a :: reGo m 0 t

/-- Python's re.sub for the patterns of this script. -/
def reSub (m : List Char → Option (List Char × List Char))
    (s : List Char) : List Char := reGo m 0 s

/-- The anchor line of apiBase.ts before which the helper is inserted. -/
def anchor : List Char := "\nexport default apiUrl;".data

/-- Tail of the anchor after its leading newline. -/
def anchorTl : List Char := "export default apiUrl;".data

/-- The helper source block apiFetch_code inserted into apiBase.ts. -/
def apiFetch_code : List Char := "\n/**\n * Helper function to make authenticated API requests\n * Automatically adds the Authorization header with the token from localStorage\n */\nexport async function apiFetch(path: string, options: RequestInit = \x7b\x7d): Promise<Response> \x7b\n  const url = apiUrl(path);\n\n  // Get token from localStorage\n  const token = typeof window !== \x27undefined\x27 ? localStorage.getItem(\x27token\x27) : null;\n\n  // Merge headers\n  const headers = new Headers(options.headers || \x7b\x7d);\n  if (token) \x7b\n    headers.set(\x27Authorization\x27, `Bearer $\x7btoken\x7d`);\n  \x7d\n\n  // Always include credentials for cookies\n  const fetchOptions: RequestInit = \x7b\n    ...options,\n    headers,\n    credentials: \x27include\x27,\n  \x7d;\n\n  return fetch(url, fetchOptions);\n\x7d\n".data

/-- The operation add_apiFetch_to_apiBase: replace every occurrence of the
anchor by the helper block followed by the anchor, then write the file
unconditionally (second component records that a write happened). -/
def add_apiFetch_to_apiBase (content : List Char) : List Char × Bool :=
  (pyReplace content anchor (apiFetch_code ++ anchor), true)

/-- Literal fragment of the call patterns. -/
def litFetchApiUrl : List Char := "fetch(apiUrl(".data

/-- Literal fragment of the rewritten calls. -/
def litApiFetchOpen : List Char := "apiFetch(".data

/-- Literal fragment of the credentials option. -/
def litCredentials : List Char := "credentials:".data

/-- Literal fragment naming the include value. -/
def litInclude : List Char := "include".data

/-- Literal fragment of the import patterns. -/
def litImport : List Char := "import".data

/-- Literal fragment naming the url builder. -/
def litApiUrl : List Char := "apiUrl".data

/-- Literal fragment of the two symbol import pattern. -/
def litApiBaseComma : List Char := "API_BASE,".data

/-- Literal fragment of the import patterns. -/
def litFrom : List Char := "from".data

/-- Literal fragment required inside the module path of an import. -/
def litApiBase : List Char := "apiBase".data

/-- Replacement head of the one symbol import rewrite. -/
def rep1head : List Char := "import \x7b apiUrl, apiFetch \x7d from ".data

/-- Replacement head of the two symbol import rewrite. -/
def rep2head : List Char := "import \x7b API_BASE, apiUrl, apiFetch \x7d from ".data

/-- Common tail of patterns three and six: a comma, optional whitespace, an
opening brace, the credentials option with the include value in either
quote kind, optional whitespace, the closing brace and the closing
parenthesis. -/
def credTail (s : List Char) : Option (List Char) := do
  let s ← lit [','] s
  let s := ws s
  let s ← lit ['\x7b'] s
  let s := ws s
  let s ← lit litCredentials s
  let s := ws s
  let (_, s) ← quoteStep s
  let s ← lit litInclude s
  let (_, s) ← quoteStep s
  let s := ws s
  let s ← lit ['\x7d'] s
  lit [')'] s

/-- Matcher of pattern one: an import of exactly the symbol apiUrl from a
module path containing apiBase, in either quote kind.  The two quote
groups are captured independently; the module path group is the maximal
quote free run and must contain apiBase. -/
def m1 (s : List Char) : Option (List Char × List Char) := do
  let s ← lit litImport s
  let s ← lit ['\x7b'] (ws s)
  let s ← lit litApiUrl (ws s)
  let s ← lit ['\x7d'] (ws s)
  let s ← lit litFrom (ws s)
  let (q1, s) ← quoteStep (ws s)
  let r := s.takeWhile (fun c => !isQuote c)
  let s := s.dropWhile (fun c => !isQuote c)
  if containsSub litApiBase r then do
    let (q2, s) ← quoteStep s
    pure (rep1head ++ [q1] ++ r ++ [q2], s)
  else none

/-- Matcher of pattern two: an import of exactly the symbols API_BASE and
apiUrl from a module path containing apiBase. -/
def m2 (s : List Char) : Option (List Char × List Char) := do
  let s ← lit litImport s
  let s ← lit ['\x7b'] (ws s)
  let s ← lit litApiBaseComma (ws s)
  let s ← lit litApiUrl (ws s)
  let s ← lit ['\x7d'] (ws s)
  let s ← lit litFrom (ws s)
  let (q1, s) ← quoteStep (ws s)
  let r := s.takeWhile (fun c => !isQuote c)
  let s := s.dropWhile (fun c => !isQuote c)
  if containsSub litApiBase r then do
    let (q2, s) ← quoteStep s
    pure (rep2head ++ [q1] ++ r ++ [q2], s)
  else none

/-- Matcher of pattern three: a legacy call whose options object holds only
the credentials option, rewritten to the helper with no options.  The
argument group is the maximal nonempty run without a closing parenthesis. -/
def m3 (s : List Char) : Option (List Char × List Char) := do
  let s0 ← lit litFetchApiUrl s
  let g := s0.takeWhile (fun c => c != ')')
  if g.isEmpty then none else do
    let s1 ← lit [')'] (s0.dropWhile (fun c => c != ')'))
    let s2 ← credTail s1
    pure (litApiFetchOpen ++ g ++ [')'], s2)

/-- Matcher of pattern four: a legacy call followed by an options object
opening brace, rewritten to the helper keeping the options object. -/
def m4 (s : List Char) : Option (List Char × List Char) := do
  let s0 ← lit litFetchApiUrl s
  let g := s0.takeWhile (fun c => c != ')')
  if g.isEmpty then none else do
    let s1 ← lit [')'] (s0.dropWhile (fun c => c != ')'))
    let s2 ← lit [','] s1
    let s3 ← lit ['\x7b'] (ws s2)
    pure (litApiFetchOpen ++ g ++ (", \x7b").data, s3)

/-- Matcher of pattern five: a legacy call with no options object. -/
def m5 (s : List Char) : Option (List Char × List Char) := do
  let s0 ← lit litFetchApiUrl s
  let g := s0.takeWhile (fun c => c != ')')
  if g.isEmpty then none else do
    let s1 ← lit [')'] (s0.dropWhile (fun c => c != ')'))
    let s2 ← lit [')'] s1
    pure (litApiFetchOpen ++ g ++ [')'], s2)

/-- Matcher of pattern six: a rewritten helper call whose options object
holds only the credentials option, stripped of the options object.  The
argument group is the maximal nonempty run without a comma. -/
def m6 (s : List Char) : Option (List Char × List Char) := do
  let s0 ← lit litApiFetchOpen s
  let g := s0.takeWhile (fun c => c != ',')
  if g.isEmpty then none else do
    let s1 ← credTail (s0.dropWhile (fun c => c != ','))
    pure (litApiFetchOpen ++ g ++ [')'], s1)

/-- The fixed ordered chain of the six global substitutions. -/
def transform (c : List Char) : List Char :=
  reSub m6 (reSub m5 (reSub m4 (reSub m3 (reSub m2 (reSub m1 c)))))

/-- First guard substring of the precondition check. -/
def patFetchApiUrlOpen : List Char := "fetch(apiUrl(".data

/-- Second guard substring of the precondition check. -/
def patFetchApi : List Char := "fetch(api".data

/-- Result of one run of update_file_with_apiFetch: the boolean returned,
whether the file was written, and the content on disk afterwards. -/
structure UpdateResult where
  returned : Bool
  wrote : Bool
  disk : List Char
deriving DecidableEq

/-- The operation update_file_with_apiFetch: return early when neither
guard substring occurs, otherwise apply the six substitutions and write
the result exactly when it differs from the original. -/
def update_file_with_apiFetch (content : List Char) : UpdateResult :=
  if !containsSub patFetchApiUrlOpen content && !containsSub patFetchApi content then
    ⟨false, false, content⟩
  else if transform content != content then
    ⟨true, true, transform content⟩
  else
    ⟨false, false, content⟩

/-- Concrete content refuting idempotence of the migration: the deleted
options object sits inside the module string of an import statement, and
a trailing fragment keeps the guard substring present after the first
run.  On the first run pattern three deletes the quoted options object
and so exposes a fresh import rewrite on the second run. -/
def c1ex : List Char := "import \x7bapiUrl\x7d from \x22fetch(apiUrl(x), \x7b credentials: \x27include\x27 \x7d) apiBase\x22 fetch(apiz".data

/-- Concrete target content containing the anchor once. -/
def c2ex : List Char := "x\nexport default apiUrl;\n".data

/-!  Theorems. -/

theorem raGo_skip (pat rep : List Char) : ∀ (k : Nat) (t : List Char),
    raGo pat rep k t = raGo pat rep 0 (t.drop k) := by
  intro k t
  induction t generalizing k with
  | nil => cases k <;> simp [raGo]
  | cons a t ih =>
    cases k with
    | zero => simp
    | succ k => simp [raGo, ih k]

/-- containsSub is the substring relation. -/
theorem containsSub_iff (pat s : List Char) :
    containsSub pat s = true ↔ ∃ x y, s = x ++ pat ++ y := by
  induction s with
  | nil =>
    simp only [containsSub, List.isEmpty_iff]
    constructor
    · rintro rfl; exact ⟨[], [], rfl⟩
    · rintro ⟨x, y, hxy⟩
      have h1 := List.append_eq_nil.mp hxy.symm
      exact (List.append_eq_nil.mp h1.1).2
  | cons a t ih =>
    simp only [containsSub, Bool.or_eq_true, List.isPrefixOf_iff_prefix, ih]
    constructor
    · rintro (⟨y, hy⟩ | ⟨x, y, hxy⟩)
      · exact ⟨[], y, by simp [hy.symm]⟩
      · exact ⟨a :: x, y, by simp [hxy]⟩
    · rintro ⟨x, y, hxy⟩
      cases x with
      | nil => exact Or.inl ⟨y, by simpa using hxy.symm⟩
      | cons b x =>
        simp only [List.cons_append, List.cons.injEq] at hxy
        exact Or.inr ⟨x, y, hxy.2⟩

theorem containsSub_middle (pat x y : List Char) :
    containsSub pat (x ++ pat ++ y) = true :=
  (containsSub_iff pat _).mpr ⟨x, y, rfl⟩

theorem raGo_of_not_contains (pat rep s : List Char)
    (h : containsSub pat s = false) : raGo pat rep 0 s = s := by
  induction s with
  | nil => simp [raGo]
  | cons a t ih =>
    rw [containsSub] at h
    simp only [Bool.or_eq_false_iff] at h
    rw [raGo]
    simp [h.1, ih h.2]

theorem isEmpty_eq_false_of_ne (l : List Char) (h : l ≠ []) : l.isEmpty = false := by
  cases l with
  | nil => exact absurd rfl h
  | cons a t => rfl

theorem raGo_length_ge (pat rep : List Char) (hlen : pat.length ≤ rep.length) :
    ∀ (t : List Char) (k : Nat), t.length - k ≤ (raGo pat rep k t).length := by
  intro t
  induction t with
  | nil => intro k; simp [raGo]
  | cons a t ih =>
    intro k
    cases k with
    | succ k =>
      rw [raGo]
      have := ih k
      simp only [List.length_cons]
      omega
    | zero =>
      rw [raGo]
      split
      · next hg =>
        simp only [Bool.and_eq_true] at hg
        have hpre : pat <+: a :: t := List.isPrefixOf_iff_prefix.mp hg.1
        have hplen : pat.length ≤ t.length + 1 := by
          have := hpre.length_le
          simpa using this
        have hpat1 : 1 ≤ pat.length := by
          cases pat with
          | nil => simp at hg
          | cons p ps => simp
        have h2 := ih (pat.length - 1)
        simp only [List.length_append, List.length_cons]
        omega
      · have := ih 0
        simp only [List.length_cons]
        omega

theorem raGo_length_gt (pat rep : List Char) (hne : pat ≠ [])
    (hlen : pat.length < rep.length) :
    ∀ t, containsSub pat t = true → t.length < (raGo pat rep 0 t).length := by
  intro t
  induction t with
  | nil =>
    intro h
    simp [containsSub, List.isEmpty_iff, hne] at h
  | cons a t ih =>
    intro h
    rw [containsSub] at h
    simp only [Bool.or_eq_true] at h
    rw [raGo]
    by_cases hp : pat.isPrefixOf (a :: t) = true
    · rw [if_pos (by rw [hp, isEmpty_eq_false_of_ne pat hne]; rfl)]
      have hpre : pat <+: a :: t := List.isPrefixOf_iff_prefix.mp hp
      have hplen : pat.length ≤ t.length + 1 := by
        have := hpre.length_le
        simpa using this
      have hpat1 : 1 ≤ pat.length := by
        cases pat with
        | nil => exact absurd rfl hne
        | cons p ps => simp
      have h2 := raGo_length_ge pat rep (Nat.le_of_lt hlen) t (pat.length - 1)
      simp only [List.length_append, List.length_cons]
      omega
    · rw [if_neg (by simp only [Bool.and_eq_true]; exact fun hq => hp hq.1)]
      have ht : containsSub pat t = true := by
        rcases h with h | h
        · exact absurd h hp
        · exact h
      have := ih ht
      simp only [List.length_cons]
      omega

theorem containsSub_raGo (pat b : List Char) (hne : pat ≠ []) :
    ∀ t, containsSub pat t = true →
      containsSub pat (raGo pat (b ++ pat) 0 t) = true := by
  intro t
  induction t with
  | nil =>
    intro h
    simp [containsSub, List.isEmpty_iff, hne] at h
  | cons a t ih =>
    intro h
    rw [containsSub] at h
    simp only [Bool.or_eq_true] at h
    rw [raGo]
    by_cases hp : pat.isPrefixOf (a :: t) = true
    · rw [if_pos (by rw [hp, isEmpty_eq_false_of_ne pat hne]; rfl)]
      have : (b ++ pat) ++ raGo pat (b ++ pat) (pat.length - 1) t =
          b ++ pat ++ raGo pat (b ++ pat) (pat.length - 1) t := by
        simp [List.append_assoc]
      rw [this]
      exact containsSub_middle pat b _
    · rw [if_neg (by simp only [Bool.and_eq_true]; exact fun hq => hp hq.1)]
      have ht : containsSub pat t = true := by
        rcases h with h | h
        · exact absurd h hp
        · exact h
      rw [containsSub]
      simp [ih ht]

theorem anchor_cons : anchor = '\n' :: anchorTl := rfl

/-- The anchor has no nontrivial border: no proper nonempty suffix of the
anchor is also a prefix of the anchor.  Hence occurrences of the anchor
never overlap, and every occurrence is found by the leftmost scan. -/
theorem anchor_border_free : ∀ m, m < anchor.length → 1 ≤ m →
    anchor.drop m ≠ anchor.take (anchor.length - m) := by decide

/-- The anchor does not begin inside a nonempty anchor free segment that
is followed by the anchor: an occurrence starting there would either lie
inside the segment or exhibit a border of the anchor. -/
theorem anchor_not_prefix_of_seg_append (s rest : List Char) (hne : s ≠ [])
    (h : containsSub anchor s = false) :
    anchor.isPrefixOf (s ++ (anchor ++ rest)) = false := by
  cases hb : anchor.isPrefixOf (s ++ (anchor ++ rest)) with
  | false => rfl
  | true =>
    exfalso
    have hpre : anchor <+: s ++ (anchor ++ rest) :=
      List.isPrefixOf_iff_prefix.mp hb
    by_cases hlen : anchor.length ≤ s.length
    · have hps : anchor <+: s :=
        List.prefix_of_prefix_length_le hpre (List.prefix_append s _) hlen
      rcases hps with ⟨y, hy⟩
      have : containsSub anchor s = true :=
        (containsSub_iff anchor s).mpr ⟨[], y, by simp [hy.symm]⟩
      rw [this] at h
      exact absurd h (by simp)
    · push_neg at hlen
      have hs1 : 1 ≤ s.length := List.length_pos.mpr hne
      have hsp : s <+: anchor :=
        List.prefix_of_prefix_length_le (List.prefix_append s _) hpre
          (Nat.le_of_lt hlen)
      rcases hsp with ⟨v, hv⟩
      rcases hpre with ⟨t, ht⟩
      have hvt : v ++ t = anchor ++ rest := by
        have hassoc := ht
        nth_rewrite 1 [← hv] at hassoc
        rw [List.append_assoc] at hassoc
        exact List.append_cancel_left hassoc
      have hvpre : v <+: anchor ++ rest := ⟨t, hvt⟩
      have hvlen : v.length ≤ anchor.length := by
        have := congrArg List.length hv
        simp only [List.length_append] at this
        omega
      have hvanchor : v <+: anchor :=
        List.prefix_of_prefix_length_le hvpre (List.prefix_append anchor rest)
          hvlen
      have hvtake : v = anchor.take v.length :=
        List.prefix_iff_eq_take.mp hvanchor
      have hvlen2 : v.length = anchor.length - s.length := by
        have := congrArg List.length hv
        simp only [List.length_append] at this
        omega
      have hdrop : anchor.drop s.length = anchor.take (anchor.length - s.length) := by
        conv_lhs => rw [← hv]
        rw [List.drop_left]
        rw [← hvlen2]
        exact hvtake
      exact anchor_border_free s.length hlen hs1 hdrop

/-- The scan of the replacement passes unchanged through an anchor free
segment that precedes a planted anchor. -/
theorem raGo_anchor_passthrough (rep : List Char) :
    ∀ (s rest : List Char), containsSub anchor s = false →
      raGo anchor rep 0 (s ++ (anchor ++ rest)) =
        s ++ raGo anchor rep 0 (anchor ++ rest) := by
  intro s
  induction s with
  | nil =>
    intro rest _
    simp
  | cons a s ih =>
    intro rest h
    have hpf := anchor_not_prefix_of_seg_append (a :: s) rest (by simp) h
    rw [List.cons_append] at hpf
    rw [containsSub] at h
    simp only [Bool.or_eq_false_iff] at h
    rw [List.cons_append, raGo]
    rw [if_neg (by rw [hpf]; simp)]
    rw [ih rest h.2, List.cons_append]

/-- The scan of the replacement replaces a planted anchor at the head and
continues after it. -/
theorem raGo_anchor_head (rep rest : List Char) :
    raGo anchor rep 0 (anchor ++ rest) = rep ++ raGo anchor rep 0 rest := by
  have h2 : anchor ++ rest = '\n' :: (anchorTl ++ rest) := by
    rw [anchor_cons]; simp
  rw [h2, raGo]
  have h3 : anchor.isPrefixOf ('\n' :: (anchorTl ++ rest)) = true := by
    rw [← h2]
    simp [List.isPrefixOf_iff_prefix]
  rw [if_pos (by rw [h3, isEmpty_eq_false_of_ne anchor (by decide)]; rfl)]
  rw [raGo_skip]
  have h4 : anchor.length - 1 = anchorTl.length := by decide
  rw [h4, List.drop_left]

/-- The replacement of the anchor inserts the helper block before every
planted anchor of a content built from arbitrary anchor free segments. -/
theorem raGo_insert_all (ss : List (List Char)) :
    ∀ s0 : List Char, containsSub anchor s0 = false →
      (∀ s ∈ ss, containsSub anchor s = false) →
      raGo anchor (apiFetch_code ++ anchor) 0
          (s0 ++ (ss.map (fun s => anchor ++ s)).flatten) =
        s0 ++ (ss.map (fun s => apiFetch_code ++ anchor ++ s)).flatten := by
  induction ss with
  | nil =>
    intro s0 h0 _
    simp only [List.map_nil, List.flatten_nil, List.append_nil]
    exact raGo_of_not_contains anchor _ s0 h0
  | cons s ss ih =>
    intro s0 h0 hss
    simp only [List.map_cons, List.flatten_cons]
    rw [show s0 ++ ((anchor ++ s) ++ (ss.map (fun x => anchor ++ x)).flatten) =
      s0 ++ (anchor ++ (s ++ (ss.map (fun x => anchor ++ x)).flatten)) by
        simp [List.append_assoc]]
    rw [raGo_anchor_passthrough _ s0 _ h0, raGo_anchor_head]
    rw [ih s (hss s (by simp)) (fun y hy => hss y (by simp [hy]))]
    simp [List.append_assoc]

theorem update_unchanged_of_no_guard (c : List Char)
    (h1 : containsSub patFetchApiUrlOpen c = false)
    (h2 : containsSub patFetchApi c = false) :
    update_file_with_apiFetch c = ⟨false, false, c⟩ := by
  unfold update_file_with_apiFetch
  rw [if_pos (by rw [h1, h2]; rfl)]

theorem lit_cons_self (c : Char) (t : List Char) : lit [c] (c :: t) = some t := by
  simp [lit, List.isPrefixOf]

/-- Claim C1, counterexample: a concrete content on which the second run
of migrate-call-sites returns true and changes the output of the first
run, refuting idempotence.  The first run deletes an options object
inside the module string of an import statement and so exposes a fresh
rewrite of that import on the second run. -/
theorem migrate_not_idempotent_counterexample :
    (update_file_with_apiFetch (update_file_with_apiFetch c1ex).disk).returned = true ∧
    (update_file_with_apiFetch (update_file_with_apiFetch c1ex).disk).disk ≠
      (update_file_with_apiFetch c1ex).disk := by
  decide

/-- Claim C1, amended: the second run of migrate-call-sites yields output
identical to the first run and returns false whenever the first run
output no longer holds either legacy guard substring; in general a
second run can make further changes. -/
theorem migrate_second_run_noop_of_no_legacy_substring (c : List Char)
    (h1 : containsSub patFetchApiUrlOpen (update_file_with_apiFetch c).disk = false)
    (h2 : containsSub patFetchApi (update_file_with_apiFetch c).disk = false) :
    update_file_with_apiFetch ((update_file_with_apiFetch c).disk) =
      ⟨false, false, (update_file_with_apiFetch c).disk⟩ :=
  update_unchanged_of_no_guard _ h1 h2

/-- Claim C1, witness for the amended theorem at a concrete content. -/
theorem migrate_second_run_noop_witness :
    containsSub patFetchApiUrlOpen
      (update_file_with_apiFetch "fetch(apiUrl(1))".data).disk = false ∧
    containsSub patFetchApi
      (update_file_with_apiFetch "fetch(apiUrl(1))".data).disk = false ∧
    update_file_with_apiFetch
        ((update_file_with_apiFetch "fetch(apiUrl(1))".data).disk) =
      ⟨false, false, (update_file_with_apiFetch "fetch(apiUrl(1))".data).disk⟩ :=
  ⟨by decide, by decide,
    migrate_second_run_noop_of_no_legacy_substring _ (by decide) (by decide)⟩

/-- Claim C2, counterexample: applying inject-helper twice to a content
containing the anchor yields a different result than applying it once,
because the helper block is inserted a second time. -/
theorem inject_twice_ne_once_counterexample :
    (add_apiFetch_to_apiBase (add_apiFetch_to_apiBase c2ex).1).1 ≠
      (add_apiFetch_to_apiBase c2ex).1 := by
  decide

/-- Claim C2, amended: inject-helper does not guard against double
insertion.  Whenever the content contains the anchor, a second
application inserts the helper block again, so applying twice never
equals applying once; the content is left unchanged only when the anchor
is absent. -/
theorem inject_twice_ne_once_of_anchor_present (c : List Char)
    (h : containsSub anchor c = true) :
    (add_apiFetch_to_apiBase (add_apiFetch_to_apiBase c).1).1 ≠
      (add_apiFetch_to_apiBase c).1 := by
  have hne : anchor ≠ [] := by decide
  have hlen : anchor.length < (apiFetch_code ++ anchor).length := by
    have hcode : 1 ≤ apiFetch_code.length := by decide
    simp only [List.length_append]
    omega
  have h1 := containsSub_raGo anchor apiFetch_code hne c h
  have h2 := raGo_length_gt anchor (apiFetch_code ++ anchor) hne hlen _ h1
  intro heq
  unfold add_apiFetch_to_apiBase pyReplace at heq
  simp only at heq
  rw [heq] at h2
  exact lt_irrefl _ h2

/-- Claim C2, witness for the amended theorem at a concrete content. -/
theorem inject_twice_ne_once_witness :
    containsSub anchor "a\nexport default apiUrl;".data = true ∧
    (add_apiFetch_to_apiBase
        (add_apiFetch_to_apiBase "a\nexport default apiUrl;".data).1).1 ≠
      (add_apiFetch_to_apiBase "a\nexport default apiUrl;".data).1 :=
  ⟨by decide, inject_twice_ne_once_of_anchor_present _ (by decide)⟩

/-- Claim C4: migrate-call-sites returns true exactly when the content on
disk afterwards differs from the original content, and the file is
written exactly when true is returned. -/
theorem migrate_returns_true_iff_changed (c : List Char) :
    ((update_file_with_apiFetch c).returned = true ↔
      (update_file_with_apiFetch c).disk ≠ c) ∧
    (update_file_with_apiFetch c).wrote = (update_file_with_apiFetch c).returned := by
  unfold update_file_with_apiFetch
  split
  · simp
  · split
    · next h =>
      simp only [bne_iff_ne, ne_eq] at h
      simpa using h
    · simp

/-- Claim C5: when the content holds neither legacy guard substring,
migrate-call-sites leaves it unchanged, does not write, and returns
false. -/
theorem migrate_noop_of_no_legacy_substrings (c : List Char)
    (h1 : containsSub patFetchApiUrlOpen c = false)
    (h2 : containsSub patFetchApi c = false) :
    update_file_with_apiFetch c = ⟨false, false, c⟩ :=
  update_unchanged_of_no_guard c h1 h2

/-- Claim C5, witness at a concrete content. -/
theorem migrate_noop_witness :
    containsSub patFetchApiUrlOpen "hello world".data = false ∧
    containsSub patFetchApi "hello world".data = false ∧
    update_file_with_apiFetch "hello world".data =
      ⟨false, false, "hello world".data⟩ :=
  ⟨by decide, by decide,
    migrate_noop_of_no_legacy_substrings _ (by decide) (by decide)⟩

/-- Claim C6: when the content does not contain the anchor line,
inject-helper leaves the content unchanged yet still performs its
unconditional write. -/
theorem inject_unchanged_but_written_of_no_anchor (c : List Char)
    (h : containsSub anchor c = false) :
    add_apiFetch_to_apiBase c = (c, true) := by
  unfold add_apiFetch_to_apiBase pyReplace
  rw [raGo_of_not_contains anchor _ c h]

/-- Claim C6, witness at a concrete content. -/
theorem inject_unchanged_witness :
    containsSub anchor "hello".data = false ∧
    add_apiFetch_to_apiBase "hello".data = ("hello".data, true) :=
  ⟨by decide, inject_unchanged_but_written_of_no_anchor _ (by decide)⟩

/-- Claim C7: a file consisting of exactly one legacy call with the
single credentials include option is rewritten to the helper call with
the same argument and no options object, and reported as updated. -/
theorem migrate_single_credentials_call_example :
    update_file_with_apiFetch
        "fetch(apiUrl(\x22/x\x22), \x7b credentials: \x22include\x22 \x7d)".data =
      ⟨true, true, "apiFetch(\x22/x\x22)".data⟩ := by
  decide

/-- Claim C8: the import substitution passes rewrite an import of exactly
the symbol apiUrl from the apiBase module path by adding apiFetch to
the imported list, and an import of exactly the symbols API_BASE and
apiUrl by additionally importing apiFetch. -/
theorem import_rewrite_examples :
    reSub m2 (reSub m1 "import \x7b apiUrl \x7d from \x22./apiBase\x22".data) =
      "import \x7b apiUrl, apiFetch \x7d from \x22./apiBase\x22".data ∧
    reSub m2 (reSub m1 "import \x7b API_BASE, apiUrl \x7d from \x22./apiBase\x22".data) =
      "import \x7b API_BASE, apiUrl, apiFetch \x7d from \x22./apiBase\x22".data := by
  constructor
  · decide
  · decide

/-- Claim C9: inject-helper inserts the helper block immediately before
every anchor occurrence of an arbitrary target content: any content
whose k anchor occurrences are presented as k planted anchors separated
by arbitrary anchor free segments (the anchor has no nontrivial border,
so every content with k occurrences decomposes this way) is rewritten
with the helper block inserted before each of the k occurrences.  The
replacement is global, not first occurrence only. -/
theorem inject_inserts_before_every_anchor_occurrence
    (s0 : List Char) (ss : List (List Char))
    (h0 : containsSub anchor s0 = false)
    (hss : ∀ s ∈ ss, containsSub anchor s = false) :
    (add_apiFetch_to_apiBase (s0 ++ (ss.map (fun s => anchor ++ s)).flatten)).1 =
      s0 ++ (ss.map (fun s => apiFetch_code ++ anchor ++ s)).flatten := by
  unfold add_apiFetch_to_apiBase pyReplace
  exact raGo_insert_all ss s0 h0 hss

/-- Claim C9, witness at two anchor occurrences between distinct
segments. -/
theorem inject_every_anchor_witness :
    containsSub anchor "a".data = false ∧
    (∀ s ∈ ["b".data, "c".data], containsSub anchor s = false) ∧
    (add_apiFetch_to_apiBase
        ("a".data ++
          (List.map (fun s => anchor ++ s) ["b".data, "c".data]).flatten)).1 =
      "a".data ++
        (List.map (fun s => apiFetch_code ++ anchor ++ s)
          ["b".data, "c".data]).flatten :=
  ⟨by decide, by decide,
    inject_inserts_before_every_anchor_occurrence _ _ (by decide) (by decide)⟩

/-- Claim C10: a legacy call whose options object holds the credentials
include option together with another option is merged into the helper
call with the options object kept, including the redundant credentials
option, and reported as updated. -/
theorem migrate_merges_options_keeps_credentials_example :
    update_file_with_apiFetch
        "fetch(apiUrl(\x22/x\x22), \x7b credentials: \x22include\x22, method: \x22POST\x22 \x7d)".data =
      ⟨true, true,
        "apiFetch(\x22/x\x22, \x7b credentials: \x22include\x22, method: \x22POST\x22 \x7d)".data⟩ := by
  decide

end FixAuth
